import Mathlib

/-!
Shallow embedding of the tag-deduplication and hybrid keyword-extraction
engine of the Searchive backend (Python sources under src/), together with
proofs settling the frozen claims about it.

Python strings are modelled as `List Char` (a Python `str` is a sequence of
Unicode code points); `String` wrappers mirror the source function names.
CPython's `str.lower`/`str.title`/`str.strip`/`str.isdigit` are modelled
character-by-character, faithfully on the character ranges this development
uses (ASCII, Hangul syllables, and U+212A KELVIN SIGN, whose Unicode simple
lowercase mapping is U+006B); outside those ranges the model is the
identity, and theorems quantifying over all strings carry an explicit
hypothesis restricting characters to the faithfully modelled ranges.
-/

/-- Python whitespace characters stripped by str.strip (ASCII part: space,
tab, newline, carriage return, vertical tab, form feed). -/
def pySpaceChar (c : Char) : Bool :=
  c = ' ' || c = '\t' || c = '\n' || c = '\r' || c.toNat = 11 || c.toNat = 12

/-- Model of CPython str.strip(): remove leading and trailing whitespace. -/
def pyStripL (s : List Char) : List Char :=
  ((s.dropWhile pySpaceChar).reverse.dropWhile pySpaceChar).reverse

/-- Model of CPython str.lower applied to one code point. Faithful on ASCII
(A-Z maps to a-z), on Hangul syllables (caseless, identity), and on
U+212A KELVIN SIGN whose Unicode lowercase mapping is U+006B LATIN SMALL
LETTER K; identity on all other code points (a restriction of the model,
see the module docstring). -/
def pyLowerChar (c : Char) : Char :=
  if 65 ≤ c.toNat ∧ c.toNat ≤ 90 then Char.ofNat (c.toNat + 32)
  else if c.toNat = 0x212A then 'k'
  else c

/-- Model of CPython str.upper applied to one ASCII code point (a-z to A-Z),
identity elsewhere. Only ever applied to characters matched by the
regex class [a-zA-Z\s\-], where it is exact. -/
def pyUpperChar (c : Char) : Char :=
  if 97 ≤ c.toNat ∧ c.toNat ≤ 122 then Char.ofNat (c.toNat - 32)
  else c

/-- Model of CPython str.lower over a string (code-point-wise; see
pyLowerChar for the faithful ranges). -/
def pyLowerL (s : List Char) : List Char := s.map pyLowerChar

/-- Is this character an ASCII letter (matched by [a-zA-Z])? -/
def asciiAlpha (c : Char) : Bool :=
  (65 ≤ c.toNat ∧ c.toNat ≤ 90) || (97 ≤ c.toNat ∧ c.toNat ≤ 122)

/-- Model of CPython str.title restricted to strings of ASCII letters,
whitespace and hyphens (the only strings the source applies it to: the
is_english regex has matched). The boolean state records whether the
previous character was a cased letter. -/
def pyTitleAux (prevCased : Bool) : List Char → List Char
  | [] => []
  | c :: cs =>
    if asciiAlpha c then
      (if prevCased then pyLowerChar c else pyUpperChar c) :: pyTitleAux true cs
    else
      c :: pyTitleAux false cs

/-- Model of CPython str.title (see pyTitleAux). -/
def pyTitleL (s : List Char) : List Char := pyTitleAux false s

/-- One character of the regex class [a-zA-Z\s\-] from
TagService.normalize_tag_name (re \s modelled by the ASCII whitespace of
pySpaceChar). -/
def englishClassChar (c : Char) : Bool :=
  asciiAlpha c || pySpaceChar c || c = '-'

/-- Does the whole string match the regex r'[a-zA-Z\s\-]+' anchored at both
ends (nonempty, every character in the class)? -/
def matchesEnglishRegex (s : List Char) : Bool :=
  !s.isEmpty && s.all englishClassChar

/-- Embedding of TagService.normalize_tag_name (src/domains/tags/service.py):
strip, then title-case if the stripped name matches r'[a-zA-Z\s\-]+' in
full, else lowercase. -/
def normalizeTagNameL (name : List Char) : List Char :=
  let s := pyStripL name
  if matchesEnglishRegex s then pyTitleL s else pyLowerL s

/-- String-level wrapper of TagService.normalize_tag_name. -/
def normalize_tag_name (name : String) : String :=
  ⟨normalizeTagNameL name.data⟩

/-- ENGLISH_STOPWORDS from src/core/keyword_extraction.py, verbatim. -/
def ENGLISH_STOPWORDS : List String :=
  ["a", "an", "the",
   "and", "or", "but", "nor", "so", "for", "yet",
   "of", "in", "on", "at", "to", "by", "with", "from", "up", "about", "into",
   "through", "during", "before", "after", "above", "below", "between", "under",
   "over", "out", "off", "down", "upon", "across", "against", "along", "among",
   "around", "as", "behind", "beside", "besides", "beyond", "inside", "outside",
   "near", "next", "onto", "per", "since", "than", "till", "toward", "towards",
   "underneath", "until", "via", "within", "without",
   "i", "you", "he", "she", "it", "we", "they", "me", "him", "her", "us", "them",
   "my", "your", "his", "its", "our", "their", "mine", "yours", "hers", "ours", "theirs",
   "this", "that", "these", "those", "who", "whom", "whose", "which", "what",
   "is", "am", "are", "was", "were", "be", "been", "being",
   "can", "could", "may", "might", "must", "shall", "should", "will", "would",
   "do", "does", "did", "doing", "done", "have", "has", "had", "having",
   "if", "then", "else", "when", "where", "why", "how", "all", "any", "both",
   "each", "few", "more", "most", "other", "some", "such", "no", "not", "only",
   "own", "same", "too", "very", "just", "also", "etc", "eg", "ie", "vs"]

/-- KOREAN_STOPWORDS from src/core/keyword_extraction.py, verbatim. -/
def KOREAN_STOPWORDS : List String :=
  ["이", "가", "을", "를", "은", "는", "에", "에서", "로", "으로", "의", "와", "과",
   "도", "만", "까지", "부터", "한테", "께", "보다", "처럼", "같이", "마다", "조차",
   "에게", "한테서", "께서", "에게서", "로부터", "으로부터", "라고", "이라고",
   "라는", "이라는", "라며", "이라며", "라면", "이라면",
   "그리고", "또는", "하지만", "그러나", "그래서", "그러므로", "따라서", "즉", "또한",
   "저", "나", "너", "우리", "그", "이것", "그것", "저것", "여기", "거기", "저기",
   "이런", "그런", "저런", "이렇게", "그렇게", "저렇게",
   "등", "및", "또", "더", "덜", "좀", "약", "혹은", "예를", "들어", "통해",
   "것", "수", "때", "점", "바", "중", "간", "내", "외"]

/-- MIN_KEYWORD_LENGTH from src/core/keyword_extraction.py. -/
def MIN_KEYWORD_LENGTH : Nat := 2

/-- Model of CPython str.isdigit restricted to ASCII digits (the source only
meets ASCII input here): nonempty and every character is 0-9. -/
def pyIsDigitL (s : List Char) : Bool :=
  !s.isEmpty && s.all (fun c => 48 ≤ c.toNat ∧ c.toNat ≤ 57)

/-- Embedding of is_stopword (src/core/keyword_extraction.py): lowercase and
strip, then flag strings shorter than MIN_KEYWORD_LENGTH, members of
either stopword set, and digit-only strings. -/
def isStopwordL (keyword : List Char) : Bool :=
  let kl := pyStripL (pyLowerL keyword)
  if kl.length < MIN_KEYWORD_LENGTH then true
  else if ENGLISH_STOPWORDS.contains ⟨kl⟩ then true
  else if KOREAN_STOPWORDS.contains ⟨kl⟩ then true
  else if pyIsDigitL kl then true
  else false

/-- String-level wrapper of is_stopword. -/
def is_stopword (keyword : String) : Bool := isStopwordL keyword.data

/-- KOREAN_PARTICLES from src/core/keyword_extraction.py, in source order
(note that the one-character particle 로 precedes the two-character
particle 으로). -/
def KOREAN_PARTICLES : List String :=
  ["이", "가", "을", "를", "은", "는", "에", "에서", "로", "으로", "의", "와", "과", "도", "만"]

/-- Model of CPython str.endswith: the second list is a suffix of the
first. -/
def pyEndsWith (s suffixL : List Char) : Bool :=
  suffixL.reverse.isPrefixOf s.reverse

/-- Is the character a Hangul syllable (U+AC00 through U+D7A3), as tested by
the source comprehension in remove_particle? -/
def isHangulSyllable (c : Char) : Bool :=
  0xAC00 ≤ c.toNat ∧ c.toNat ≤ 0xD7A3

/-- The inner loop of remove_particle over the particles as code-point
sequences: find the first particle in list order whose removal applies,
i.e. the keyword ends with it and is more than one character longer than
it (which makes the remainder at least MIN_KEYWORD_LENGTH characters). -/
def removeParticleLoop (kw : List Char) : List (List Char) → List Char
  | [] => kw
  | p :: ps =>
    if pyEndsWith kw p ∧ kw.length > p.length + 1 then
      kw.take (kw.length - p.length)
    else removeParticleLoop kw ps

/-- Embedding of remove_particle (src/core/keyword_extraction.py): strip,
then if the token contains a Hangul syllable, strip the first applicable
particle of KOREAN_PARTICLES in list order; otherwise return the stripped
token unchanged. -/
def removeParticleL (keyword : List Char) : List Char :=
  let kw := pyStripL keyword
  if kw.any isHangulSyllable then
    removeParticleLoop kw (KOREAN_PARTICLES.map String.data)
  else kw

/-- String-level wrapper of remove_particle. -/
def remove_particle (keyword : String) : String := ⟨removeParticleL keyword.data⟩

/-- Model of CPython str.split() with no argument: split on whitespace runs,
discarding empty pieces. -/
def pySplitWs (s : List Char) : List (List Char) :=
  (List.splitOnP (fun c => pySpaceChar c) s).filter (fun w => !w.isEmpty)

/-- Embedding of filter_stopwords (src/core/keyword_extraction.py): strip
each keyword, drop empties, remove a trailing particle, then keep a
single-word token if it is not a stopword, and keep a space-containing
token unless all its whitespace-separated words are stopwords. -/
def filterStopwordsL (keywords : List (List Char)) : List (List Char) :=
  keywords.foldr
    (fun kw acc =>
      let kwStripped := pyStripL kw
      if kwStripped.isEmpty then acc
      else
        let kwCleaned := removeParticleL kwStripped
        if !kwCleaned.contains ' ' then
          if !isStopwordL kwCleaned then kwCleaned :: acc else acc
        else
          if !((pySplitWs kwCleaned).all (fun w => isStopwordL w)) then kwCleaned :: acc
          else acc)
    []

/-- String-level wrapper of filter_stopwords. -/
def filter_stopwords (keywords : List String) : List String :=
  (filterStopwordsL (keywords.map String.data)).map (fun l => ⟨l⟩)

/-- The dedup key kw.strip().lower() of the dict-based dedup step of
HybridKeywordExtractionService.extract_keywords
(src/core/keyword_extraction.py, step 4). -/
def dedupKey (kw : List Char) : List Char := pyLowerL (pyStripL kw)

/-- The walk of the dict-based dedup step: key each keyword by dedupKey,
record unseen nonempty keys in insertion order; the emitted list is
list(seen.keys()), i.e. the normalized keys themselves. -/
def dictDedupAux (seen : List (List Char)) : List (List Char) → List (List Char)
  | [] => []
  | kw :: rest =>
    let k := dedupKey kw
    if !k.isEmpty && !seen.contains k then k :: dictDedupAux (k :: seen) rest
    else dictDedupAux seen rest

/-- String-level wrapper of the dict-based dedup step. -/
def dictDedupKeys (kws : List String) : List String :=
  (dictDedupAux [] (kws.map String.data)).map (fun l => ⟨l⟩)

/-- Embedding of HybridKeywordExtractionService.extract_keywords
(src/core/keyword_extraction.py). The two extraction strategies call
external services (a KeyBERT model, an Elasticsearch significant-text
aggregation), so their raw candidate outputs enter as the parameters
keybertRaw and esRaw (an extraction failure is the empty list, as in the
source); documentCount models elasticsearch_client.get_document_count(),
threshold models settings.KEYWORD_EXTRACTION_THRESHOLD and targetCount
models settings.KEYWORD_EXTRACTION_COUNT. Returns the final keyword list
and the method label from get_method_name. -/
def HybridKeywordExtractionService.extract_keywords
    (documentCount threshold targetCount : Nat)
    (keybertRaw esRaw : List String) : List String × String :=
  let rawMethod :=
    if documentCount < threshold then (keybertRaw, "keybert")
    else (esRaw, "elasticsearch")
  let filtered := filter_stopwords rawMethod.1
  let deduped := dictDedupKeys filtered
  (deduped.take targetCount, rawMethod.2)

/-- Skeleton of the tagging-relevant control flow of
DocumentService.upload_document (src/domains/documents/service.py, steps
6, 9 and 10): extractedText models the result of text extraction (none
for a failed extraction); if it is missing or shorter than 10 characters
after strip, the upload returns zero tags with method label "none";
otherwise hybrid extraction runs, and an empty final keyword list returns
zero tags with the chosen extractor's method label. The first component
is the keyword list handed to tag attachment (empty means zero tags are
attached). -/
def DocumentService.uploadTagging (extractedText : Option String)
    (documentCount threshold targetCount : Nat)
    (keybertRaw esRaw : List String) : List String × String :=
  match extractedText with
  | none => ([], "none")
  | some t =>
    if (pyStripL t.data).length < 10 then ([], "none")
    else
      HybridKeywordExtractionService.extract_keywords
        documentCount threshold targetCount keybertRaw esRaw

/-- A persisted Tag row: tag_id, unique name, embedding vector
(src/domains/tags/models.py). Embedding components are modelled as
rationals. The same shape serves as a Tag Index document
{tag_id, name, embedding} (src/core/elasticsearch_client.py, index_tag). -/
structure Tag where
  tag_id : Nat
  name : String
  embedding : List ℚ
deriving DecidableEq

/-- State visible to one upload's tag resolution: the primary-store rows
visible to the session (committed rows plus this session's flushed,
not-yet-committed inserts), the Tag Index documents, and the next
primary-key value. -/
structure TagDbWorld where
  db : List Tag
  es : List Tag
  nextId : Nat
deriving DecidableEq

/-- The scoring function of the Tag Index's nearest-neighbor search. The
actual scoring runs inside Elasticsearch (external to the repository), so
it enters the model as a parameter; the repository and the spec treat the
score as the cosine similarity of the query and document embeddings. -/
def SimFn : Type := List ℚ → List ℚ → ℚ

/-- The best (highest-scoring) document of the Tag Index for a query, the
k=1 nearest-neighbor of ElasticsearchClient.search_similar_tags
(src/core/elasticsearch_client.py); first document wins ties. -/
def ElasticsearchClient.bestHit (sim : SimFn) (q : List ℚ) (es : List Tag) : Option Tag :=
  es.foldl
    (fun acc e =>
      match acc with
      | none => some e
      | some b => if sim q b.embedding < sim q e.embedding then some e else some b)
    none

/-- Embedding of ElasticsearchClient.search_similar_tags with size=1 (the
only size used by the tag-resolution callers): the top KNN hit, kept only
if its score passes min_score=threshold. Elasticsearch's documented
min_score semantics exclude hits scoring strictly below the cutoff, so a
hit scoring exactly the threshold is kept. -/
def ElasticsearchClient.search_similar_tags (sim : SimFn) (es : List Tag)
    (q : List ℚ) (threshold : ℚ) : Option Tag :=
  match ElasticsearchClient.bestHit sim q es with
  | none => none
  | some b => if threshold ≤ sim q b.embedding then some b else none

/-- Embedding of ElasticsearchClient.search_similar_tags_batch with size=1:
one independent KNN query per embedding, all executed against the same
index state, before any of the batch's tag creations. -/
def ElasticsearchClient.search_similar_tags_batch (sim : SimFn) (es : List Tag)
    (threshold : ℚ) (qs : List (List ℚ)) : List (Option Tag) :=
  qs.map (fun q => ElasticsearchClient.search_similar_tags sim es q threshold)

/-- Embedding of TagRepository.find_by_name (src/domains/tags/repository.py). -/
def TagRepository.find_by_name (db : List Tag) (name : String) : Option Tag :=
  db.find? (fun t => t.name == name)

/-- Embedding of TagRepository.find_by_id (src/domains/tags/repository.py). -/
def TagRepository.find_by_id (db : List Tag) (tagId : Nat) : Option Tag :=
  db.find? (fun t => t.tag_id == tagId)

/-- Embedding of TagRepository.create on its success path
(src/domains/tags/repository.py): insert the new row (commit or flush both
make it visible to this session's queries) and mirror it into the Tag
Index via index_tag. -/
def TagRepository.create (w : TagDbWorld) (name : String) (embedding : List ℚ) :
    Tag × TagDbWorld :=
  let t : Tag := ⟨w.nextId, name, embedding⟩
  (t, ⟨w.db ++ [t], w.es ++ [t], w.nextId + 1⟩)

/-- Error surfaced by the primary store when an INSERT violates the unique
constraint on Tag.name. -/
inductive DbError where
  | uniqueViolation
deriving DecidableEq

/-- TagRepository.create with the commit's unique-name check made explicit:
committed is the committed primary store at commit time, which a
concurrent writer may have extended after this session's lookups ran. The
Python body wraps no try/except around the INSERT/commit (only around the
Elasticsearch index_tag call), so a violation propagates to the caller,
which the error result models. -/
def TagRepository.createChecked (committed : List Tag) (w : TagDbWorld)
    (name : String) (embedding : List ℚ) : Except DbError (Tag × TagDbWorld) :=
  if committed.any (fun t => t.name == name) then .error .uniqueViolation
  else .ok (TagRepository.create w name embedding)

/-- Embedding of TagRepository.find_similar_tag
(src/domains/tags/repository.py): Tag Index KNN lookup, then re-fetch the
matched tag from the primary store by id; a failed re-fetch yields no
match. -/
def TagRepository.find_similar_tag (sim : SimFn) (w : TagDbWorld)
    (embedding : List ℚ) (threshold : ℚ) : Option Tag :=
  match ElasticsearchClient.search_similar_tags sim w.es embedding threshold with
  | none => none
  | some h => TagRepository.find_by_id w.db h.tag_id

/-- Embedding of TagRepository.get_or_create (src/domains/tags/repository.py):
exact lookup, then (after db.flush, a no-op on the model's session-visible
state) similarity lookup, then create. committed is the committed store
seen by the final INSERT's unique-constraint check; passing committed =
w.db describes the race-free case, and a committed store containing a
concurrently created row with the same name describes the duplicate-name
creation race. -/
def TagRepository.get_or_create (sim : SimFn) (committed : List Tag)
    (w : TagDbWorld) (name : String) (embedding : List ℚ) (threshold : ℚ) :
    Except DbError (Tag × TagDbWorld) :=
  match TagRepository.find_by_name w.db name with
  | some t => .ok (t, w)
  | none =>
    match TagRepository.find_similar_tag sim w embedding threshold with
    | some t => .ok (t, w)
    | none => TagRepository.createChecked committed w name embedding

/-- One iteration of the resolution loop of TagService.get_or_create_tags
(src/domains/tags/service.py): exact name lookup against the session's
current store; else the pre-computed batch similarity hit re-fetched by
id; else create. -/
def TagService.resolveOne (w : TagDbWorld) (name : String) (embedding : List ℚ)
    (hit : Option Tag) : Tag × TagDbWorld :=
  match TagRepository.find_by_name w.db name with
  | some t => (t, w)
  | none =>
    match hit with
    | some h =>
      match TagRepository.find_by_id w.db h.tag_id with
      | some t => (t, w)
      | none => TagRepository.create w name embedding
    | none => TagRepository.create w name embedding

/-- The defensive stopword filter opening TagService.get_or_create_tags:
strip each name, drop empty and stopword names. -/
def TagService.validNames (names : List String) : List String :=
  (names.map (fun n => (⟨pyStripL n.data⟩ : String))).filter
    (fun n => !(n == "") && !is_stopword n)

/-- The deduplicated normalized name list of TagService.get_or_create_tags:
unique_names = list(set(normalized_names)). The Python set's arbitrary
iteration order enters as the parameter setList; theorems assume only
that it returns the distinct elements of its input. -/
def TagService.uniqueNames (setList : List String → List String)
    (names : List String) : List String :=
  setList ((TagService.validNames names).map normalize_tag_name)

/-- The sequential resolution loop of TagService.get_or_create_tags over
(name, (embedding, pre-computed batch hit)) triples, threading the world
and accumulating the resolved tags in order. -/
def TagService.resolveLoop (acc : List Tag × TagDbWorld) :
    List (String × (List ℚ × Option Tag)) → List Tag × TagDbWorld
  | [] => acc
  | p :: ps =>
    let r := TagService.resolveOne acc.2 p.1 p.2.1 p.2.2
    TagService.resolveLoop (acc.1 ++ [r.1], r.2) ps

/-- Embedding of TagService.get_or_create_tags (src/domains/tags/service.py):
strip and stopword-filter the names, normalize, deduplicate via
list(set(...)), encode each unique name (enc models the external
embedding_service.encode), run ONE batch similarity search against the
index state as it is before the loop, then resolve the unique names
sequentially. Returns the resolved tags in loop order with the final
world. -/
def TagService.get_or_create_tags (sim : SimFn) (enc : String → List ℚ)
    (setList : List String → List String) (threshold : ℚ)
    (w : TagDbWorld) (names : List String) : List Tag × TagDbWorld :=
  if names.isEmpty then ([], w)
  else if (TagService.validNames names).isEmpty then ([], w)
  else
    let uniqueNames := TagService.uniqueNames setList names
    let embeddings := uniqueNames.map enc
    let batchResults :=
      ElasticsearchClient.search_similar_tags_batch sim w.es threshold embeddings
    TagService.resolveLoop ([], w) (uniqueNames.zip (embeddings.zip batchResults))

/-- Dot product of two real vectors, as computed by np.dot on equal-length
1-d arrays. -/
def dotL (a b : List ℝ) : ℝ := (List.zipWith (· * ·) a b).sum

/-- Sum of squares of a real vector; np.linalg.norm is its square root. -/
def sumSq (a : List ℝ) : ℝ := (a.map (fun x => x * x)).sum

/-- Embedding of EmbeddingService.compute_similarity
(src/core/embedding_service.py): dot product over the product of the
Euclidean norms, with 0.0 returned when either norm is zero, and 0.0
returned when the enclosing try/except catches the shape-mismatch error
np.dot raises on vectors of different lengths. -/
noncomputable def EmbeddingService.compute_similarity (a b : List ℝ) : ℝ :=
  if a.length ≠ b.length then 0
  else if Real.sqrt (sumSq a) = 0 ∨ Real.sqrt (sumSq b) = 0 then 0
  else dotL a b / (Real.sqrt (sumSq a) * Real.sqrt (sumSq b))

/-- Embedding of EmbeddingService.find_most_similar
(src/core/embedding_service.py): track the running maximum similarity
(strictly-greater updates, starting from -1.0) over the enumerated
candidates, then return the best index and similarity if the maximum
passes the threshold comparison max_similarity >= threshold, else
(-1, 0.0). -/
noncomputable def EmbeddingService.find_most_similar (q : List ℝ)
    (cands : List (List ℝ)) (threshold : ℝ) : ℤ × ℝ :=
  if cands.isEmpty then (-1, 0)
  else
    let r := cands.enum.foldl
      (fun (acc : ℤ × ℝ) (p : ℕ × List ℝ) =>
        let s := EmbeddingService.compute_similarity q p.2
        if acc.2 < s then ((p.1 : ℤ), s) else acc)
      (-1, -1)
    if threshold ≤ r.2 then r else (-1, 0)

/-- Rational vectors cast to real vectors, for stating cosine-distance side
conditions about the tag pipeline's embeddings. -/
def castVec (v : List ℚ) : List ℝ := v.map (fun x => (x : ℝ))

/-- An embedding function assigning every name the same unit vector; a legal
instance of the external encoder parameter, under which any two names are
embedding-identical (cosine distance zero). -/
def encConstUnit : String → List ℚ := fun _ => [1, 0]

/-- A constant-zero index scoring function; concrete theorems that never
consult the index (empty index state) instantiate the external scoring
parameter with it. -/
def simConstZero : SimFn := fun _ _ => 0

/-- The initial empty world: no tags in the primary store, none in the Tag
Index. -/
def emptyWorld : TagDbWorld := ⟨[], [], 0⟩

/-- A pre-existing committed tag named Cloud, used to exhibit the
duplicate-name creation race. -/
def cloudTag : Tag := ⟨0, "Cloud", [1, 0]⟩

/-- First-occurrence deduplication of a list, the order-preserving dedup the
amended claim C4 describes; proved equal to the dict-based walk below. -/
def keepFirst : List (List Char) → List (List Char)
  | [] => []
  | x :: xs => x :: keepFirst (xs.filter (fun y => y ≠ x))
termination_by l => l.length
decreasing_by
  simp only [List.length_cons]
  exact Nat.lt_succ_of_le (List.length_filter_le _ _)

theorem dictDedupAux_eq_keepFirst (l : List (List Char)) :
    ∀ seen, dictDedupAux seen l
      = keepFirst ((l.map dedupKey).filter (fun k => !k.isEmpty && !seen.contains k)) := by
  induction l with
  | nil => intro seen; simp [dictDedupAux, keepFirst]
  | cons kw rest ih =>
    intro seen
    simp only [dictDedupAux, List.map_cons, List.filter_cons]
    by_cases h : (!(dedupKey kw).isEmpty && !seen.contains (dedupKey kw)) = true
    · rw [if_pos h, if_pos h, keepFirst, ih (dedupKey kw :: seen), List.filter_filter]
      refine congrArg (List.cons (dedupKey kw)) (congrArg keepFirst (List.filter_congr ?_))
      intro a _
      by_cases hae : a.isEmpty <;> by_cases hak : a = dedupKey kw <;>
        by_cases has : seen.contains a <;>
        simp [hae, hak, has, List.contains_cons]
    · rw [if_neg h, if_neg h, ih seen]

theorem dictDedupKeys_eq_keepFirst (kws : List String) :
    dictDedupKeys kws
      = (keepFirst (((kws.map String.data).map dedupKey).filter
          (fun k => !k.isEmpty))).map (fun l => (⟨l⟩ : String)) := by
  unfold dictDedupKeys
  rw [dictDedupAux_eq_keepFirst]
  refine congrArg _ (congrArg keepFirst ?_)
  rw [List.map_map]
  apply List.filter_congr
  intro a _
  simp [List.contains]

/-- C4 counterexample: on the candidate list ["Cloud", "cloud"] the
orchestrator's dedup step emits the lowercased key "cloud", not the
original casing "Cloud" of the first occurrence the claim requires
(cold-start regime, threshold 5, corpus count 0, target count 3). -/
theorem C4_counterexample :
    HybridKeywordExtractionService.extract_keywords 0 5 3 ["Cloud", "cloud"] []
      = (["cloud"], "keybert") ∧ ("cloud" : String) ≠ "Cloud" :=
  ⟨by decide, by decide⟩

/-- C4 (amended): after stopword filtering the orchestrator deduplicates
case-insensitively with the stripped lowercased form as the key,
preserves first-seen order, and emits the key itself (the lowercased
trimmed form), not the original casing of the first occurrence: the dict
walk equals first-occurrence dedup of the normalized keys with empties
dropped, and the final keyword list is this dedup of the filtered
candidates truncated to the target count. -/
theorem C4_dedup_emits_lowercase_keys :
    (∀ kws : List String,
      dictDedupKeys kws
        = (keepFirst (((kws.map String.data).map dedupKey).filter
            (fun k => !k.isEmpty))).map (fun l => (⟨l⟩ : String))) ∧
    (∀ (documentCount threshold targetCount : Nat) (kb es : List String),
      (HybridKeywordExtractionService.extract_keywords
          documentCount threshold targetCount kb es).1
        = (dictDedupKeys (filter_stopwords
            (if documentCount < threshold then kb else es))).take targetCount) := by
  refine ⟨dictDedupKeys_eq_keepFirst, ?_⟩
  intro n t tc kb es
  unfold HybridKeywordExtractionService.extract_keywords
  by_cases h : n < t <;> simp [h]

/-- C6: the orchestrator selects the Cold-Start (KeyBERT) extractor exactly
when the indexed-document count is below the threshold and the
Corpus-Relative (Elasticsearch) extractor exactly when the count reaches
it; the unselected strategy's output is ignored; with threshold 5, count
4 goes cold-start and count 5 goes corpus-relative. -/
theorem C6_threshold_regime_switch :
    (∀ (documentCount threshold targetCount : Nat) (kb es : List String),
      ((HybridKeywordExtractionService.extract_keywords
          documentCount threshold targetCount kb es).2 = "keybert"
        ↔ documentCount < threshold) ∧
      ((HybridKeywordExtractionService.extract_keywords
          documentCount threshold targetCount kb es).2 = "elasticsearch"
        ↔ threshold ≤ documentCount) ∧
      HybridKeywordExtractionService.extract_keywords
          documentCount threshold targetCount kb es
        = (if documentCount < threshold then
            HybridKeywordExtractionService.extract_keywords
              documentCount threshold targetCount kb []
          else
            HybridKeywordExtractionService.extract_keywords
              documentCount threshold targetCount [] es)) ∧
    (∀ (targetCount : Nat) (kb es : List String),
      (HybridKeywordExtractionService.extract_keywords 4 5 targetCount kb es).2
          = "keybert" ∧
      (HybridKeywordExtractionService.extract_keywords 5 5 targetCount kb es).2
          = "elasticsearch") := by
  have hm : ∀ (n t tc : Nat) (kb es : List String),
      (HybridKeywordExtractionService.extract_keywords n t tc kb es).2
        = if n < t then "keybert" else "elasticsearch" := by
    intro n t tc kb es
    unfold HybridKeywordExtractionService.extract_keywords
    by_cases h : n < t <;> simp [h]
  have hne2 : ("keybert" : String) ≠ "elasticsearch" := by decide
  constructor
  · intro n t tc kb es
    refine ⟨?_, ?_, ?_⟩
    · rw [hm]
      by_cases h : n < t <;> simp [h, hne2, Nat.not_lt]
    · rw [hm]
      by_cases h : n < t <;> simp [h, Ne.symm hne2, Nat.not_lt]
      omega
    · unfold HybridKeywordExtractionService.extract_keywords
      by_cases h : n < t <;> simp [h]
  · intro tc kb es
    rw [hm, hm]
    norm_num

/-- C5 counterexample: a long-enough text whose only candidate keyword is a
stopword uploads with zero tags but method label "keybert", not the
label "none" the claim requires for every empty final keyword list. -/
theorem C5_counterexample :
    DocumentService.uploadTagging (some "0123456789") 0 5 3 ["the"] []
      = ([], "keybert") ∧ ("keybert" : String) ≠ "none" :=
  ⟨by decide, by decide⟩

/-- C5 (amended): an upload with an empty final keyword list always succeeds
with zero tags attached, but the method label is "none" only when the
extracted text is missing or shorter than 10 characters after trimming;
when extraction ran and every candidate was filtered out, the label is
the chosen extractor's label, not "none". -/
theorem C5_empty_keywords_zero_tags :
    (∀ (n t tc : Nat) (kb es : List String),
      DocumentService.uploadTagging none n t tc kb es = ([], "none")) ∧
    (∀ (s : String) (n t tc : Nat) (kb es : List String),
      (pyStripL s.data).length < 10 →
      DocumentService.uploadTagging (some s) n t tc kb es = ([], "none")) ∧
    (∀ (s : String) (n t tc : Nat) (kb es : List String),
      ¬ (pyStripL s.data).length < 10 →
      (HybridKeywordExtractionService.extract_keywords n t tc kb es).1 = [] →
      DocumentService.uploadTagging (some s) n t tc kb es
        = ([], (HybridKeywordExtractionService.extract_keywords n t tc kb es).2)) := by
  refine ⟨fun n t tc kb es => rfl, ?_, ?_⟩
  · intro s n t tc kb es h
    simp only [DocumentService.uploadTagging]
    rw [if_pos h]
  · intro s n t tc kb es h hkw
    simp only [DocumentService.uploadTagging]
    rw [if_neg h, Prod.ext_iff]
    exact ⟨hkw, rfl⟩

/-- Closed instance of C5_empty_keywords_zero_tags: a short text yields
([], "none"); a long text whose corpus-relative candidates are all
stopwords yields ([], "elasticsearch"). -/
theorem C5_empty_keywords_zero_tags_witness :
    DocumentService.uploadTagging (some " hi ") 0 5 3 ["x"] [] = ([], "none") ∧
    DocumentService.uploadTagging (some "0123456789A") 7 5 3 [] ["the", "2024"]
      = ([], "elasticsearch") := by
  constructor
  · exact C5_empty_keywords_zero_tags.2.1 " hi " 0 5 3 ["x"] [] (by decide)
  · have h := C5_empty_keywords_zero_tags.2.2 "0123456789A" 7 5 3 [] ["the", "2024"]
      (by decide) (by decide)
    rw [h]; decide

/-- C8 counterexample: the token 서울으로 ends with the particle 으로, but
remove_particle strips only 로 (the first matching particle in source
list order), yielding 서울으 rather than the 서울 the longest-first claim
requires. -/
theorem C8_counterexample :
    remove_particle "서울으로" = "서울으" ∧
    pyEndsWith ("서울으로" : String).data ("으로" : String).data = true ∧
    ("서울으" : String) ≠ "서울" :=
  ⟨by decide, by decide, by decide⟩

/-- C8 (amended): remove_particle strips the FIRST applicable particle in
the source order of KOREAN_PARTICLES, not the longest: since 로 precedes
으로, every Hangul token of the form base ++ 으로 (base nonempty, token
already trimmed) loses only 로; and a token without a Hangul syllable is
returned trimmed but otherwise unchanged. -/
theorem C8_first_match_particle_strip :
    (∀ base : List Char, base ≠ [] →
      pyStripL (base ++ ['으', '로']) = base ++ ['으', '로'] →
      removeParticleL (base ++ ['으', '로']) = base ++ ['으']) ∧
    (∀ kw : List Char, (pyStripL kw).any isHangulSyllable = false →
      removeParticleL kw = pyStripL kw) := by
  constructor
  · intro base hne hstrip
    simp only [removeParticleL]
    rw [hstrip]
    have hany : (base ++ ['으', '로']).any isHangulSyllable = true := by
      rw [List.any_eq_true]
      exact ⟨'으', List.mem_append_right _ (by decide), by decide⟩
    rw [if_pos hany]
    have hlen : (base ++ ['으', '로']).length = base.length + 2 := by
      simp
    have hbase : 0 < base.length := List.length_pos.mpr hne
    have hrev : (base ++ ['으', '로']).reverse = '로' :: '으' :: base.reverse := by
      simp
    have hmap : KOREAN_PARTICLES.map String.data
        = [['이'], ['가'], ['을'], ['를'], ['은'], ['는'], ['에'], ['에', '서'],
           ['로'], ['으', '로'], ['의'], ['와'], ['과'], ['도'], ['만']] := by decide
    have hmiss : ∀ c : Char, c ≠ '로' →
        pyEndsWith (base ++ ['으', '로']) [c] = false := by
      intro c hc
      rw [pyEndsWith, hrev]
      simp [List.isPrefixOf, hc]
    have hmiss2 : pyEndsWith (base ++ ['으', '로']) ['에', '서'] = false := by
      rw [pyEndsWith, hrev]
      simp [List.isPrefixOf]
    have hhit : pyEndsWith (base ++ ['으', '로']) ['로'] = true := by
      rw [pyEndsWith, hrev]
      simp [List.isPrefixOf]
    rw [hmap]
    simp only [removeParticleLoop]
    rw [if_neg (fun hc => by simp [hmiss '이' (by decide)] at hc),
        if_neg (fun hc => by simp [hmiss '가' (by decide)] at hc),
        if_neg (fun hc => by simp [hmiss '을' (by decide)] at hc),
        if_neg (fun hc => by simp [hmiss '를' (by decide)] at hc),
        if_neg (fun hc => by simp [hmiss '은' (by decide)] at hc),
        if_neg (fun hc => by simp [hmiss '는' (by decide)] at hc),
        if_neg (fun hc => by simp [hmiss '에' (by decide)] at hc),
        if_neg (fun hc => by simp [hmiss2] at hc),
        if_pos ⟨by rw [hhit], by rw [hlen]; simp; omega⟩]
    have h2 : base ++ ['으', '로'] = (base ++ ['으']) ++ ['로'] := by simp
    rw [hlen]
    have h3 : base.length + 2 - List.length ['로'] = (base ++ ['으']).length := by
      simp
    rw [h2, h3, List.take_left]
  · intro kw h
    simp only [removeParticleL]
    rw [if_neg (by rw [h]; decide)]

/-- Closed instance of C8_first_match_particle_strip: 한글으로 loses only 로,
and the Hangul-free token abc passes through trimmed. -/
theorem C8_first_match_particle_strip_witness :
    removeParticleL (['한', '글'] ++ ['으', '로']) = ['한', '글'] ++ ['으'] ∧
    removeParticleL ['a', 'b', 'c'] = pyStripL ['a', 'b', 'c'] :=
  ⟨C8_first_match_particle_strip.1 ['한', '글'] (by decide) (by decide),
   C8_first_match_particle_strip.2 ['a', 'b', 'c'] (by decide)⟩

/-- C3 counterexample: with the session's lookup view empty but the
committed store already holding the tag Cloud (a concurrent writer won
the race), get_or_create for the name Cloud propagates the
uniqueness-constraint violation instead of re-fetching and returning the
existing tag as the claim requires. -/
theorem C3_counterexample :
    TagRepository.get_or_create simConstZero [cloudTag] emptyWorld "Cloud" [1, 0] (4/5)
      = .error .uniqueViolation ∧
    TagRepository.find_by_name [cloudTag] "Cloud" = some cloudTag :=
  ⟨rfl, by decide⟩

/-- C3 (amended): when the exact lookup and the similarity lookup both miss
but a concurrent writer has committed a tag with the same name, the
INSERT's uniqueness-constraint violation propagates out of
get_or_create (no handler converts it into a re-fetch; only
Elasticsearch indexing failures are caught in the source), aborting the
enclosing upload. -/
theorem C3_unique_violation_propagates
    (sim : SimFn) (committed : List Tag) (w : TagDbWorld) (name : String)
    (embedding : List ℚ) (threshold : ℚ)
    (hexact : TagRepository.find_by_name w.db name = none)
    (hsim : TagRepository.find_similar_tag sim w embedding threshold = none)
    (hrace : committed.any (fun t => t.name == name) = true) :
    TagRepository.get_or_create sim committed w name embedding threshold
      = .error .uniqueViolation := by
  unfold TagRepository.get_or_create
  rw [hexact, hsim]
  unfold TagRepository.createChecked
  rw [if_pos hrace]

/-- Closed instance of C3_unique_violation_propagates: the Python tag races
against a committed writer and the violation surfaces as an error. -/
theorem C3_unique_violation_propagates_witness :
    TagRepository.get_or_create simConstZero [⟨7, "Python", [0, 1]⟩] emptyWorld
      "Python" [0, 1] (4/5) = .error .uniqueViolation :=
  C3_unique_violation_propagates simConstZero [⟨7, "Python", [0, 1]⟩] emptyWorld
    "Python" [0, 1] (4/5) (by decide) (by decide) (by decide)

/-- Sums of squares are nonnegative. -/
theorem sumSq_nonneg (a : List ℝ) : 0 ≤ sumSq a :=
  List.sum_nonneg (fun x hx => by
    obtain ⟨y, _, rfl⟩ := List.mem_map.mp hx
    exact mul_self_nonneg y)

/-- Cauchy-Schwarz for list dot products. -/
theorem list_cauchy_schwarz (a b : List ℝ) :
    (dotL a b) ^ 2 ≤ sumSq a * sumSq b := by
  induction a generalizing b with
  | nil =>
    simp only [dotL, List.zipWith_nil_left, List.sum_nil, ne_eq, OfNat.ofNat_ne_zero,
      not_false_eq_true, zero_pow]
    exact mul_nonneg (sumSq_nonneg []) (sumSq_nonneg b)
  | cons x xs ih =>
    cases b with
    | nil =>
      simp only [dotL, List.zipWith_nil_right, List.sum_nil, ne_eq, OfNat.ofNat_ne_zero,
        not_false_eq_true, zero_pow]
      exact mul_nonneg (sumSq_nonneg _) (sumSq_nonneg [])
    | cons y ys =>
      have h := ih ys
      have h1 := sumSq_nonneg xs
      have h2 := sumSq_nonneg ys
      set d := dotL xs ys with hd
      set sa := sumSq xs with hsa
      set sb := sumSq ys with hsb
      have goalEq : dotL (x :: xs) (y :: ys) = x * y + d := by
        simp [dotL, hd]
      have saEq : sumSq (x :: xs) = x * x + sa := by simp [sumSq, hsa]
      have sbEq : sumSq (y :: ys) = y * y + sb := by simp [sumSq, hsb]
      rw [goalEq, saEq, sbEq]
      set u := Real.sqrt sa with hu
      set v := Real.sqrt sb with hv
      have hu2 : u * u = sa := Real.mul_self_sqrt h1
      have hv2 : v * v = sb := Real.mul_self_sqrt h2
      have hun : 0 ≤ u := Real.sqrt_nonneg _
      have hvn : 0 ≤ v := Real.sqrt_nonneg _
      have hdle : d ^ 2 ≤ (u * v) ^ 2 := by nlinarith [h]
      have hbounds := abs_le_of_sq_le_sq' hdle (by positivity)
      have step1 : (x * y + d) ^ 2 ≤ (|x| * |y| + u * v) ^ 2 := by
        apply sq_le_sq'
        · have hx1 : -(|x| * |y|) ≤ x * y := neg_abs_le (x * y) |>.trans_eq' (by rw [abs_mul])
          linarith [hbounds.1, hx1]
        · have hx2 : x * y ≤ |x| * |y| := (le_abs_self (x * y)).trans_eq (abs_mul x y)
          linarith [hbounds.2, hx2]
      have step2 : (|x| * |y| + u * v) ^ 2 ≤ (x * x + u * u) * (y * y + v * v) := by
        nlinarith [sq_nonneg (|x| * v - |y| * u), abs_mul_abs_self x, abs_mul_abs_self y,
          abs_nonneg x, abs_nonneg y, mul_nonneg hun hvn]
      calc (x * y + d) ^ 2 ≤ (|x| * |y| + u * v) ^ 2 := step1
        _ ≤ (x * x + u * u) * (y * y + v * v) := step2
        _ = (x * x + sa) * (y * y + sb) := by rw [hu2, hv2]

/-- C10: compute_similarity is total: it always returns a value in [-1, 1]
(so the division is never unguarded: length mismatches and zero norms
return 0.0 through the explicit guards modelled in the definition, and
otherwise Cauchy-Schwarz bounds the quotient); in particular a zero norm
on either side yields exactly 0. -/
theorem C10_compute_similarity_total :
    ∀ a b : List ℝ,
      (-1 ≤ EmbeddingService.compute_similarity a b ∧
        EmbeddingService.compute_similarity a b ≤ 1) ∧
      (Real.sqrt (sumSq a) = 0 ∨ Real.sqrt (sumSq b) = 0 →
        EmbeddingService.compute_similarity a b = 0) := by
  intro a b
  unfold EmbeddingService.compute_similarity
  by_cases hl : a.length ≠ b.length
  · rw [if_pos hl]
    norm_num
  · rw [if_neg hl]
    by_cases hz : Real.sqrt (sumSq a) = 0 ∨ Real.sqrt (sumSq b) = 0
    · rw [if_pos hz]
      norm_num
    · rw [if_neg hz]
      push_neg at hz
      refine ⟨?_, fun hcontra => absurd hcontra (by push_neg; exact hz)⟩
      have h1 : 0 < Real.sqrt (sumSq a) :=
        lt_of_le_of_ne (Real.sqrt_nonneg _) (Ne.symm hz.1)
      have h2 : 0 < Real.sqrt (sumSq b) :=
        lt_of_le_of_ne (Real.sqrt_nonneg _) (Ne.symm hz.2)
      have e1 : Real.sqrt (sumSq a) ^ 2 = sumSq a := Real.sq_sqrt (sumSq_nonneg a)
      have e2 : Real.sqrt (sumSq b) ^ 2 = sumSq b := Real.sq_sqrt (sumSq_nonneg b)
      have hd2 : (dotL a b) ^ 2 ≤ (Real.sqrt (sumSq a) * Real.sqrt (sumSq b)) ^ 2 := by
        calc (dotL a b) ^ 2 ≤ sumSq a * sumSq b := list_cauchy_schwarz a b
          _ = (Real.sqrt (sumSq a) * Real.sqrt (sumSq b)) ^ 2 := by
              rw [mul_pow, e1, e2]
      have hb := abs_le_of_sq_le_sq' hd2 (by positivity)
      constructor
      · rw [le_div_iff₀ (by positivity)]
        linarith [hb.1]
      · rw [div_le_one (by positivity)]
        exact hb.2

/-- Closed instance of C10_compute_similarity_total: a concrete similarity
lies in [-1, 1], and a zero vector yields similarity 0. -/
theorem C10_compute_similarity_total_witness :
    (-1 ≤ EmbeddingService.compute_similarity [1, 0] [4, 3] ∧
      EmbeddingService.compute_similarity [1, 0] [4, 3] ≤ 1) ∧
    EmbeddingService.compute_similarity [0, 0] [1, 2] = 0 :=
  ⟨(C10_compute_similarity_total [1, 0] [4, 3]).1,
   (C10_compute_similarity_total [0, 0] [1, 2]).2
     (Or.inl (by rw [show sumSq [0, 0] = 0 by norm_num [sumSq], Real.sqrt_zero]))⟩

/-- The square root of 25. -/
theorem sqrt_twentyfive : Real.sqrt 25 = 5 := by
  rw [show (25 : ℝ) = 5 ^ 2 by norm_num, Real.sqrt_sq (by norm_num)]

/-- compute_similarity of (1,0) and (4,3) is exactly 4/5. -/
theorem compute_similarity_eval_45 :
    EmbeddingService.compute_similarity [1, 0] [4, 3] = 4 / 5 := by
  unfold EmbeddingService.compute_similarity
  rw [if_neg (by norm_num),
    show sumSq [1, 0] = 1 by norm_num [sumSq],
    show sumSq [4, 3] = 25 by norm_num [sumSq],
    Real.sqrt_one, sqrt_twentyfive, if_neg (by norm_num)]
  norm_num [dotL]

/-- compute_similarity of a unit vector with itself is 1. -/
theorem compute_similarity_eval_unit :
    EmbeddingService.compute_similarity [1, 0] [1, 0] = 1 := by
  unfold EmbeddingService.compute_similarity
  rw [if_neg (by norm_num),
    show sumSq [1, 0] = 1 by norm_num [sumSq],
    Real.sqrt_one, if_neg (by norm_num)]
  norm_num [dotL]

/-- C7 counterexample: with threshold 0.8 and a single candidate at cosine
similarity exactly 0.8 (query (1,0), candidate (4,3)), find_most_similar
accepts the candidate (returns index 0 with score 0.8) instead of the
rejection the strict-inequality claim requires. -/
theorem C7_counterexample :
    EmbeddingService.compute_similarity [1, 0] [4, 3] = 4 / 5 ∧
    EmbeddingService.find_most_similar [1, 0] [[4, 3]] (4 / 5) = (0, 4 / 5) := by
  refine ⟨compute_similarity_eval_45, ?_⟩
  unfold EmbeddingService.find_most_similar
  rw [if_neg (by decide)]
  simp only [List.enum, List.enumFrom, List.foldl, compute_similarity_eval_45]
  rw [if_pos (by norm_num : (-1 : ℝ) < 4 / 5)]
  dsimp only
  rw [if_pos (le_refl ((4 : ℝ) / 5))]
  norm_num

/-- C7 (amended): the similarity acceptance is inclusive, not strict: a
single candidate is matched by find_most_similar exactly when its
similarity is at least the threshold (for any threshold above the -1.0
sentinel), a candidate whose similarity equals the threshold included;
likewise the Tag Index query keeps a hit whose score equals the
min_score threshold exactly. -/
theorem C7_threshold_inclusive :
    (∀ (q c : List ℝ) (t : ℝ), -1 < t →
      EmbeddingService.find_most_similar q [c] t
        = if t ≤ EmbeddingService.compute_similarity q c
          then (0, EmbeddingService.compute_similarity q c) else (-1, 0)) ∧
    (∀ (sim : SimFn) (e : Tag) (q : List ℚ) (t : ℚ),
      sim q e.embedding = t →
      ElasticsearchClient.search_similar_tags sim [e] q t = some e) := by
  constructor
  · intro q c t ht
    unfold EmbeddingService.find_most_similar
    rw [if_neg (by simp)]
    simp only [List.enum, List.enumFrom, List.foldl]
    by_cases hcmp : (-1 : ℝ) < EmbeddingService.compute_similarity q c
    · rw [if_pos hcmp]
      dsimp only
      by_cases h2 : t ≤ EmbeddingService.compute_similarity q c
      · rw [if_pos h2, if_pos h2]
        norm_num
      · rw [if_neg h2, if_neg h2]
    · rw [if_neg hcmp]
      have hs1 : EmbeddingService.compute_similarity q c ≤ -1 := le_of_not_lt hcmp
      dsimp only
      rw [if_neg (not_le.mpr ht), if_neg (fun h2 => absurd (le_trans h2 hs1) (not_le.mpr ht))]
  · intro sim e q t h
    unfold ElasticsearchClient.search_similar_tags ElasticsearchClient.bestHit
    simp only [List.foldl]
    rw [h, if_pos (le_refl t)]

/-- Closed instance of C7_threshold_inclusive: an exact self-match passes a
0.5 threshold, and an index hit scoring exactly the threshold is kept. -/
theorem C7_threshold_inclusive_witness :
    EmbeddingService.find_most_similar [1, 0] [[1, 0]] (1 / 2) = (0, 1) ∧
    ElasticsearchClient.search_similar_tags simConstZero [cloudTag] [9, 9] 0
      = some cloudTag := by
  constructor
  · rw [C7_threshold_inclusive.1 [1, 0] [1, 0] (1 / 2) (by norm_num),
      compute_similarity_eval_unit, if_pos (by norm_num : (1 : ℝ) / 2 ≤ 1)]
  · exact C7_threshold_inclusive.2 simConstZero cloudTag [9, 9] 0 rfl

/-- An exact-name lookup hit bears the looked-up name. -/
theorem find_by_name_some {db : List Tag} {n : String} {t : Tag}
    (h : TagRepository.find_by_name db n = some t) : t.name = n := by
  have := List.find?_some h
  simpa using this

/-- An id lookup hit bears the looked-up id. -/
theorem find_by_id_some {db : List Tag} {i : Nat} {t : Tag}
    (h : TagRepository.find_by_id db i = some t) : t.tag_id = i := by
  have := List.find?_some h
  simpa using this

/-- The k=1 fold of the index search only ever returns index documents. -/
theorem bestHit_mem_aux (sim : SimFn) (q : List ℚ) :
    ∀ (l : List Tag) (acc : Option Tag) (b : Tag),
      (l.foldl
        (fun acc e =>
          match acc with
          | none => some e
          | some b => if sim q b.embedding < sim q e.embedding then some e else some b)
        acc) = some b →
      acc = some b ∨ b ∈ l := by
  intro l
  induction l with
  | nil => intro acc b h; exact Or.inl h
  | cons e es ih =>
    intro acc b h
    simp only [List.foldl_cons] at h
    rcases ih _ b h with hacc | hmem
    · match acc with
      | none =>
        simp only at hacc
        exact Or.inr (by rw [← Option.some_inj.mp hacc]; exact List.mem_cons_self e es)
      | some a =>
        simp only at hacc
        by_cases hlt : sim q a.embedding < sim q e.embedding
        · rw [if_pos hlt] at hacc
          exact Or.inr (by rw [← Option.some_inj.mp hacc]; exact List.mem_cons_self e es)
        · rw [if_neg hlt] at hacc
          exact Or.inl hacc
    · exact Or.inr (List.mem_cons_of_mem e hmem)

/-- A best hit is an index document. -/
theorem bestHit_mem {sim : SimFn} {q : List ℚ} {es : List Tag} {b : Tag}
    (h : ElasticsearchClient.bestHit sim q es = some b) : b ∈ es := by
  rcases bestHit_mem_aux sim q es none b h with hacc | hmem
  · cases hacc
  · exact hmem

/-- A similarity-search hit is an index document whose score passes the
(inclusive) min_score threshold. -/
theorem search_similar_tags_some {sim : SimFn} {es : List Tag} {q : List ℚ}
    {threshold : ℚ} {h : Tag}
    (hs : ElasticsearchClient.search_similar_tags sim es q threshold = some h) :
    h ∈ es ∧ threshold ≤ sim q h.embedding := by
  unfold ElasticsearchClient.search_similar_tags at hs
  cases hb : ElasticsearchClient.bestHit sim q es with
  | none => rw [hb] at hs; cases hs
  | some b =>
    rw [hb] at hs
    dsimp only at hs
    by_cases hc : threshold ≤ sim q b.embedding
    · rw [if_pos hc] at hs
      cases Option.some_inj.mp hs
      exact ⟨bestHit_mem hb, hc⟩
    · rw [if_neg hc] at hs
      cases hs

/-- Searching an empty index finds nothing. -/
theorem search_similar_tags_nil (sim : SimFn) (q : List ℚ) (threshold : ℚ) :
    ElasticsearchClient.search_similar_tags sim [] q threshold = none := rfl

/-- One resolution step yields a tag that either bears the resolved name
(exact match or fresh creation) or re-fetches the pre-computed batch
hit's id. -/
theorem resolveOne_spec (w : TagDbWorld) (name : String) (emb : List ℚ)
    (hit : Option Tag) :
    (TagService.resolveOne w name emb hit).1.name = name ∨
    ∃ h : Tag, hit = some h ∧
      (TagService.resolveOne w name emb hit).1.tag_id = h.tag_id := by
  unfold TagService.resolveOne
  cases hfb : TagRepository.find_by_name w.db name with
  | some t => exact Or.inl (find_by_name_some hfb)
  | none =>
    dsimp only
    cases hit with
    | none => exact Or.inl rfl
    | some h =>
      dsimp only
      cases hid : TagRepository.find_by_id w.db h.tag_id with
      | none => exact Or.inl rfl
      | some t => exact Or.inr ⟨h, rfl, find_by_id_some hid⟩

/-- The sequential resolution loop resolves one tag per pair, appending in
order; every resolved tag either bears its pair's name (exact match or
fresh creation) or re-fetches a pre-computed batch hit, which lies in the
index snapshot taken before the loop and passes the threshold for that
pair's embedding. -/
theorem resolveLoop_spec (sim : SimFn) (esInit : List Tag) (threshold : ℚ) :
    ∀ (pairs : List (String × (List ℚ × Option Tag))) (accT : List Tag) (w : TagDbWorld),
      (∀ p ∈ pairs, ∀ h : Tag, p.2.2 = some h →
        h ∈ esInit ∧ threshold ≤ sim p.2.1 h.embedding) →
      ∃ newTags w2,
        TagService.resolveLoop (accT, w) pairs = (accT ++ newTags, w2) ∧
        List.Forall₂
          (fun (t : Tag) (p : String × (List ℚ × Option Tag)) =>
            t.name = p.1 ∨ ∃ e ∈ esInit, t.tag_id = e.tag_id ∧
              threshold ≤ sim p.2.1 e.embedding)
          newTags pairs := by
  intro pairs
  induction pairs with
  | nil =>
    intro accT w _
    exact ⟨[], w, by simp [TagService.resolveLoop], List.Forall₂.nil⟩
  | cons p ps ih =>
    intro accT w hhit
    obtain ⟨nts, w2, heq, hf⟩ :=
      ih (accT ++ [(TagService.resolveOne w p.1 p.2.1 p.2.2).1])
        (TagService.resolveOne w p.1 p.2.1 p.2.2).2
        (fun q hq h hh => hhit q (List.mem_cons_of_mem p hq) h hh)
    refine ⟨(TagService.resolveOne w p.1 p.2.1 p.2.2).1 :: nts, w2, ?_, ?_⟩
    · show TagService.resolveLoop
        (accT ++ [(TagService.resolveOne w p.1 p.2.1 p.2.2).1],
          (TagService.resolveOne w p.1 p.2.1 p.2.2).2) ps = _
      rw [heq]
      simp
    · refine List.Forall₂.cons ?_ hf
      rcases resolveOne_spec w p.1 p.2.1 p.2.2 with hn | ⟨h, hp, hid⟩
      · exact Or.inl hn
      · obtain ⟨hmem, hsc⟩ := hhit p (List.mem_cons_self p ps) h hp
        exact Or.inr ⟨h, hmem, hid, hsc⟩

/-- When every batch hit is empty and no pair's name is present in the
session store, the loop creates one fresh tag per pair: the resolved
names are exactly the pair names and the assigned ids are consecutive
fresh primary keys. -/
theorem resolveLoop_all_create :
    ∀ (pairs : List (String × (List ℚ × Option Tag))) (accT : List Tag) (w : TagDbWorld),
      (∀ p ∈ pairs, p.2.2 = none) →
      (∀ p ∈ pairs, TagRepository.find_by_name w.db p.1 = none) →
      (pairs.map Prod.fst).Nodup →
      ((TagService.resolveLoop (accT, w) pairs).1.map Tag.name
          = accT.map Tag.name ++ pairs.map Prod.fst) ∧
      ((TagService.resolveLoop (accT, w) pairs).1.map Tag.tag_id
          = accT.map Tag.tag_id ++ List.range' w.nextId pairs.length) := by
  intro pairs
  induction pairs with
  | nil =>
    intro accT w _ _ _
    simp [TagService.resolveLoop]
  | cons p ps ih =>
    intro accT w hhit hname hnd
    have hr : TagService.resolveOne w p.1 p.2.1 p.2.2
        = (⟨w.nextId, p.1, p.2.1⟩,
           ⟨w.db ++ [⟨w.nextId, p.1, p.2.1⟩], w.es ++ [⟨w.nextId, p.1, p.2.1⟩],
            w.nextId + 1⟩) := by
      unfold TagService.resolveOne
      rw [hname p (List.mem_cons_self p ps)]
      dsimp only
      rw [hhit p (List.mem_cons_self p ps)]
      rfl
    have hd1 : p.1 ∉ ps.map Prod.fst := (List.nodup_cons.mp hnd).1
    have step : TagService.resolveLoop (accT, w) (p :: ps)
        = TagService.resolveLoop
            (accT ++ [(⟨w.nextId, p.1, p.2.1⟩ : Tag)],
             ⟨w.db ++ [⟨w.nextId, p.1, p.2.1⟩], w.es ++ [⟨w.nextId, p.1, p.2.1⟩],
              w.nextId + 1⟩) ps := by
      show TagService.resolveLoop
          (accT ++ [(TagService.resolveOne w p.1 p.2.1 p.2.2).1],
            (TagService.resolveOne w p.1 p.2.1 p.2.2).2) ps = _
      rw [hr]
    obtain ⟨ihn, ihi⟩ := ih (accT ++ [(⟨w.nextId, p.1, p.2.1⟩ : Tag)])
      ⟨w.db ++ [⟨w.nextId, p.1, p.2.1⟩], w.es ++ [⟨w.nextId, p.1, p.2.1⟩], w.nextId + 1⟩
      (fun q hq => hhit q (List.mem_cons_of_mem p hq))
      (fun q hq => by
        unfold TagRepository.find_by_name
        rw [List.find?_append]
        have h1 : TagRepository.find_by_name w.db q.1 = none :=
          hname q (List.mem_cons_of_mem p hq)
        unfold TagRepository.find_by_name at h1
        rw [h1]
        have hne : p.1 ≠ q.1 := fun hc => hd1 (by
          rw [hc]; exact List.mem_map_of_mem Prod.fst hq)
        have hbeq : ((⟨w.nextId, p.1, p.2.1⟩ : Tag).name == q.1) = false := by
          simp only [beq_eq_false_iff_ne]
          exact hne
        simp [List.find?, hbeq])
      (List.nodup_cons.mp hnd).2
    rw [step]
    constructor
    · rw [ihn]
      simp
    · rw [ihi]
      simp only [List.length_cons, List.range'_succ]
      simp

/-- In the (name, (embedding, hit)) triples of the batch, each hit is the
similarity-search result for that same pair's embedding. -/
theorem zip_snd_map (f : List ℚ → Option Tag) (l1 : List String)
    (l2 : List (List ℚ)) :
    ∀ p ∈ l1.zip (l2.zip (l2.map f)), p.2.2 = f p.2.1 := by
  intro p hp
  obtain ⟨i, hi, hpe⟩ := List.mem_iff_getElem.mp hp
  rw [List.getElem_zip, List.getElem_zip, List.getElem_map] at hpe
  rw [← hpe]

/-- The main branch of get_or_create_tags equals the resolution loop over
the zipped unique names, embeddings and batch hits. -/
theorem get_or_create_tags_unfold (sim : SimFn) (enc : String → List ℚ)
    (setList : List String → List String) (threshold : ℚ)
    (w : TagDbWorld) (names : List String)
    (hne : names.isEmpty = false)
    (hvne : (TagService.validNames names).isEmpty = false) :
    TagService.get_or_create_tags sim enc setList threshold w names
      = TagService.resolveLoop ([], w)
          ((TagService.uniqueNames setList names).zip
            (((TagService.uniqueNames setList names).map enc).zip
              (ElasticsearchClient.search_similar_tags_batch sim w.es threshold
                ((TagService.uniqueNames setList names).map enc)))) := by
  unfold TagService.get_or_create_tags
  rw [if_neg (by simp [hne]), if_neg (by simp [hvne])]

/-- C2 (amended): get_or_create_tags returns exactly one Tag per element of
the deduplicated normalized name list unique_names (not one per input
name: stopword names are dropped and duplicates collapse, and the order
is the Python set's arbitrary iteration order, not input order); the i-th
returned Tag resolves the i-th element of unique_names: it bears that
name (exact match or fresh creation) or is a pre-batch index hit whose
score for that name's embedding passes the threshold. -/
theorem C2_batch_resolution_correspondence
    (sim : SimFn) (enc : String → List ℚ) (setList : List String → List String)
    (threshold : ℚ) (w : TagDbWorld) (names : List String)
    (hne : names.isEmpty = false)
    (hvne : (TagService.validNames names).isEmpty = false) :
    ((TagService.get_or_create_tags sim enc setList threshold w names).1.length
        = (TagService.uniqueNames setList names).length) ∧
    (∀ i, i < (TagService.uniqueNames setList names).length →
      ((((TagService.get_or_create_tags sim enc setList threshold w names).1.getD i
          ⟨0, "", []⟩).name = (TagService.uniqueNames setList names).getD i "") ∨
        ∃ e ∈ w.es,
          (((TagService.get_or_create_tags sim enc setList threshold w names).1.getD i
            ⟨0, "", []⟩).tag_id = e.tag_id ∧
          threshold ≤ sim (enc ((TagService.uniqueNames setList names).getD i ""))
            e.embedding))) := by
  have hunfold := get_or_create_tags_unfold sim enc setList threshold w names hne hvne
  set uniq := TagService.uniqueNames setList names with huniq
  set embs := uniq.map enc with hembs
  set batch := ElasticsearchClient.search_similar_tags_batch sim w.es threshold embs
    with hbatch
  have hbatch2 : batch = embs.map
      (fun q => ElasticsearchClient.search_similar_tags sim w.es q threshold) := rfl
  have hhit : ∀ p ∈ uniq.zip (embs.zip batch), ∀ h : Tag, p.2.2 = some h →
      h ∈ w.es ∧ threshold ≤ sim p.2.1 h.embedding := by
    intro p hp h hh
    rw [hbatch2] at hp
    have := zip_snd_map
      (fun q => ElasticsearchClient.search_similar_tags sim w.es q threshold)
      uniq embs p hp
    rw [this] at hh
    exact search_similar_tags_some hh
  obtain ⟨nts, w2, heq, hf⟩ :=
    resolveLoop_spec sim w.es threshold (uniq.zip (embs.zip batch)) [] w hhit
  have hres : (TagService.get_or_create_tags sim enc setList threshold w names).1
      = nts := by
    rw [hunfold, heq]
    simp
  have hlenp : (uniq.zip (embs.zip batch)).length = uniq.length := by
    simp [hbatch2, hembs]
  obtain ⟨hlen, hget⟩ := List.forall₂_iff_get.mp hf
  constructor
  · rw [hres, hlen, hlenp]
  · intro i hi
    have h2 : i < (uniq.zip (embs.zip batch)).length := by rw [hlenp]; exact hi
    have h1 : i < nts.length := by rw [hlen]; exact h2
    have hr := hget i h1 h2
    have hpair : (uniq.zip (embs.zip batch)).get ⟨i, h2⟩
        = (uniq.get ⟨i, hi⟩, (enc (uniq.get ⟨i, hi⟩),
            ElasticsearchClient.search_similar_tags sim w.es (enc (uniq.get ⟨i, hi⟩))
              threshold)) := by
      rw [List.get_zip]
      simp only [List.get_eq_getElem, List.getElem_zip, hbatch2, List.getElem_map]
      rw [Prod.ext_iff]
      refine ⟨by congr 1, ?_⟩
      rw [Prod.ext_iff]
      constructor <;> · simp only [hembs, List.getElem_map]
    rw [hpair] at hr
    have hgd1 : (TagService.get_or_create_tags sim enc setList threshold w names).1.getD i
        ⟨0, "", []⟩ = nts.get ⟨i, h1⟩ := by
      rw [hres, List.getD_eq_getElem _ _ h1, List.get_eq_getElem]
    have hgd2 : uniq.getD i "" = uniq.get ⟨i, hi⟩ := by
      rw [List.getD_eq_getElem _ _ hi, List.get_eq_getElem]
    rw [hgd1, hgd2]
    rcases hr with hn | ⟨e, hmem, hid, hsc⟩
    · exact Or.inl hn
    · exact Or.inr ⟨e, hmem, hid, hsc⟩

/-- C1 counterexample: two distinct names whose embeddings coincide (cosine
distance 0 < 1 - 0.8) are resolved in one batch against an empty store:
neither exactly matches a pre-existing tag, yet the batch creates two
sibling tags (ids 0 and 1) instead of collapsing the later name onto the
tag freshly created for the earlier one — the batch similarity probe ran
before the loop and never observes in-batch creations. -/
theorem C1_counterexample :
    EmbeddingService.compute_similarity (castVec (encConstUnit "alpha"))
        (castVec (encConstUnit "beta")) = 1 ∧
    (1 - EmbeddingService.compute_similarity (castVec (encConstUnit "alpha"))
        (castVec (encConstUnit "beta")) < 1 - (4 / 5 : ℝ)) ∧
    TagRepository.find_by_name emptyWorld.db (normalize_tag_name "alpha") = none ∧
    TagRepository.find_by_name emptyWorld.db (normalize_tag_name "beta") = none ∧
    (TagService.get_or_create_tags simConstZero encConstUnit List.dedup (4 / 5)
        emptyWorld ["alpha", "beta"]).1.map Tag.tag_id = [0, 1] ∧
    (0 : Nat) ≠ 1 := by
  have henc : castVec (encConstUnit "alpha") = [1, 0] := by
    norm_num [castVec, encConstUnit]
  have hcs : EmbeddingService.compute_similarity (castVec (encConstUnit "alpha"))
      (castVec (encConstUnit "beta")) = 1 := by
    rw [show castVec (encConstUnit "beta") = [1, 0] by norm_num [castVec, encConstUnit],
      henc]
    exact compute_similarity_eval_unit
  refine ⟨hcs, by rw [hcs]; norm_num, by decide, by decide, by decide, by decide⟩

/-- C1 (amended): within-batch similarity deduplication never happens
against tags created earlier in the same batch: the single batch
similarity probe runs against the index state before the loop, so with an
empty initial store and index, every deduplicated normalized name —
regardless of how close the embeddings are, for every encoder and every
index scoring function — creates its own fresh tag with a distinct id;
similarity dedup only ever matches tags already indexed before the batch. -/
theorem C1_no_within_batch_similarity_dedup
    (sim : SimFn) (enc : String → List ℚ) (setList : List String → List String)
    (threshold : ℚ) (w : TagDbWorld) (names : List String)
    (hdb : w.db = []) (hes : w.es = [])
    (hne : names.isEmpty = false)
    (hvne : (TagService.validNames names).isEmpty = false)
    (hnd : (TagService.uniqueNames setList names).Nodup) :
    ((TagService.get_or_create_tags sim enc setList threshold w names).1.map Tag.name
        = TagService.uniqueNames setList names) ∧
    ((TagService.get_or_create_tags sim enc setList threshold w names).1.map
        Tag.tag_id).Nodup := by
  have hunfold := get_or_create_tags_unfold sim enc setList threshold w names hne hvne
  set uniq := TagService.uniqueNames setList names with huniq
  set embs := uniq.map enc with hembs
  set batch := ElasticsearchClient.search_similar_tags_batch sim w.es threshold embs
    with hbatch
  have hbatch2 : batch = embs.map
      (fun q => ElasticsearchClient.search_similar_tags sim w.es q threshold) := rfl
  have hhitnone : ∀ p ∈ uniq.zip (embs.zip batch), p.2.2 = none := by
    intro p hp
    rw [hbatch2] at hp
    have := zip_snd_map
      (fun q => ElasticsearchClient.search_similar_tags sim w.es q threshold)
      uniq embs p hp
    rw [this, hes]
    exact search_similar_tags_nil sim p.2.1 threshold
  have hfindnone : ∀ p ∈ uniq.zip (embs.zip batch),
      TagRepository.find_by_name w.db p.1 = none := by
    intro p _
    rw [hdb]
    rfl
  have hlenb : embs.length = uniq.length := by simp [hembs]
  have hlenbb : (embs.zip batch).length = uniq.length := by
    simp [hbatch2, hembs]
  have hfst : (uniq.zip (embs.zip batch)).map Prod.fst = uniq :=
    List.map_fst_zip uniq _ (by rw [hlenbb])
  obtain ⟨hn, hi⟩ := resolveLoop_all_create (uniq.zip (embs.zip batch)) [] w
    hhitnone hfindnone (by rw [hfst]; exact hnd)
  constructor
  · rw [hunfold, hn, hfst]
    simp
  · rw [hunfold, hi]
    simp only [List.map_nil, List.nil_append]
    exact List.nodup_range' _ _

/-- Closed instance of C1_no_within_batch_similarity_dedup: the batch
["alpha", "beta"] under an encoder mapping both names to the same unit
vector still creates two tags with distinct names and ids. -/
theorem C1_no_within_batch_similarity_dedup_witness :
    ((TagService.get_or_create_tags simConstZero encConstUnit List.dedup (4 / 5)
        emptyWorld ["alpha", "beta"]).1.map Tag.name
      = TagService.uniqueNames List.dedup ["alpha", "beta"]) ∧
    ((TagService.get_or_create_tags simConstZero encConstUnit List.dedup (4 / 5)
        emptyWorld ["alpha", "beta"]).1.map Tag.tag_id).Nodup :=
  C1_no_within_batch_similarity_dedup simConstZero encConstUnit List.dedup (4 / 5)
    emptyWorld ["alpha", "beta"] rfl rfl (by decide) (by decide) (by decide)

/-- C2 counterexample: for the input ["cloud", "CLOUD"] the batch returns a
single Tag (the two names collapse to one normalized name), so no
correspondence between the i-th input name and the i-th returned Tag can
exist: the output is per deduplicated normalized name, not per input
name. -/
theorem C2_counterexample :
    (TagService.get_or_create_tags simConstZero encConstUnit List.dedup (4 / 5)
        emptyWorld ["cloud", "CLOUD"]).1.length = 1 ∧
    (["cloud", "CLOUD"] : List String).length = 2 ∧ (1 : Nat) ≠ 2 :=
  ⟨by decide, by decide, by decide⟩

/-- Closed instance of C2_batch_resolution_correspondence: a one-name batch
yields one tag resolving the single deduplicated normalized name. -/
theorem C2_batch_resolution_correspondence_witness :
    ((TagService.get_or_create_tags simConstZero encConstUnit List.dedup (4 / 5)
        emptyWorld ["Redis"]).1.length
      = (TagService.uniqueNames List.dedup ["Redis"]).length) ∧
    ((((TagService.get_or_create_tags simConstZero encConstUnit List.dedup (4 / 5)
        emptyWorld ["Redis"]).1.getD 0 ⟨0, "", []⟩).name
        = (TagService.uniqueNames List.dedup ["Redis"]).getD 0 "") ∨
      ∃ e ∈ emptyWorld.es,
        (((TagService.get_or_create_tags simConstZero encConstUnit List.dedup (4 / 5)
          emptyWorld ["Redis"]).1.getD 0 ⟨0, "", []⟩).tag_id = e.tag_id ∧
        (4 / 5 : ℚ) ≤ simConstZero
          (encConstUnit ((TagService.uniqueNames List.dedup ["Redis"]).getD 0 ""))
          e.embedding)) :=
  ⟨(C2_batch_resolution_correspondence simConstZero encConstUnit List.dedup (4 / 5)
      emptyWorld ["Redis"] (by decide) (by decide)).1,
   (C2_batch_resolution_correspondence simConstZero encConstUnit List.dedup (4 / 5)
      emptyWorld ["Redis"] (by decide) (by decide)).2 0 (by decide)⟩

/-- Characters are determined by their code points. -/
theorem char_eq_iff_toNat {a b : Char} : a = b ↔ a.toNat = b.toNat := by
  constructor
  · intro h; rw [h]
  · intro h
    exact Char.ext (UInt32.ext h)

/-- A valid code point round-trips through Char.ofNat. -/
theorem toNat_ofNat_valid (n : Nat) (h : n < 0xd800) : (Char.ofNat n).toNat = n := by
  unfold Char.ofNat
  rw [dif_pos (Or.inl h)]
  simp [Char.ofNatAux, Char.toNat, UInt32.ofNat', UInt32.toNat]

/-- Code-point characterization of the modelled Python whitespace. -/
theorem pySpaceChar_iff (c : Char) :
    pySpaceChar c = true ↔
      (c.toNat = 32 ∨ c.toNat = 9 ∨ c.toNat = 10 ∨ c.toNat = 13 ∨
        c.toNat = 11 ∨ c.toNat = 12) := by
  unfold pySpaceChar
  simp only [Bool.or_eq_true, decide_eq_true_eq, char_eq_iff_toNat]
  rw [show (' ' : Char).toNat = 32 from rfl, show ('\t' : Char).toNat = 9 from rfl,
    show ('\n' : Char).toNat = 10 from rfl, show ('\r' : Char).toNat = 13 from rfl]
  omega

/-- Code-point characterization of the regex class [a-zA-Z\s\-]. -/
theorem englishClassChar_iff (c : Char) :
    englishClassChar c = true ↔
      ((65 ≤ c.toNat ∧ c.toNat ≤ 90) ∨ (97 ≤ c.toNat ∧ c.toNat ≤ 122) ∨
        (c.toNat = 32 ∨ c.toNat = 9 ∨ c.toNat = 10 ∨ c.toNat = 13 ∨
          c.toNat = 11 ∨ c.toNat = 12) ∨ c.toNat = 45) := by
  unfold englishClassChar asciiAlpha
  simp only [Bool.or_eq_true, decide_eq_true_eq, char_eq_iff_toNat, pySpaceChar_iff]
  rw [show ('-' : Char).toNat = 45 from rfl]
  omega

/-- The code point of the lowered character, by range. -/
theorem pyLowerChar_toNat (c : Char) :
    (65 ≤ c.toNat ∧ c.toNat ≤ 90 → (pyLowerChar c).toNat = c.toNat + 32) ∧
    (¬ (65 ≤ c.toNat ∧ c.toNat ≤ 90) → c.toNat = 0x212A → (pyLowerChar c).toNat = 107) ∧
    (¬ (65 ≤ c.toNat ∧ c.toNat ≤ 90) → c.toNat ≠ 0x212A → pyLowerChar c = c) := by
  refine ⟨?_, ?_, ?_⟩
  · intro h
    unfold pyLowerChar
    rw [if_pos h]
    exact toNat_ofNat_valid _ (by omega)
  · intro h hk
    unfold pyLowerChar
    rw [if_neg h, if_pos hk]
    rfl
  · intro h hk
    unfold pyLowerChar
    rw [if_neg h, if_neg hk]

/-- The code point of the uppercased character, by range. -/
theorem pyUpperChar_toNat (c : Char) :
    (97 ≤ c.toNat ∧ c.toNat ≤ 122 → (pyUpperChar c).toNat = c.toNat - 32) ∧
    (¬ (97 ≤ c.toNat ∧ c.toNat ≤ 122) → pyUpperChar c = c) := by
  constructor
  · intro h
    unfold pyUpperChar
    rw [if_pos h]
    exact toNat_ofNat_valid _ (by omega)
  · intro h
    unfold pyUpperChar
    rw [if_neg h]

/-- Lowercasing is idempotent in the model. -/
theorem pyLowerChar_idem (c : Char) : pyLowerChar (pyLowerChar c) = pyLowerChar c := by
  by_cases h : 65 ≤ c.toNat ∧ c.toNat ≤ 90
  · have ht := (pyLowerChar_toNat c).1 h
    exact ((pyLowerChar_toNat (pyLowerChar c)).2.2 (by omega) (by omega))
  · by_cases hk : c.toNat = 0x212A
    · have ht := (pyLowerChar_toNat c).2.1 h hk
      exact ((pyLowerChar_toNat (pyLowerChar c)).2.2 (by omega) (by omega))
    · rw [(pyLowerChar_toNat c).2.2 h hk, (pyLowerChar_toNat c).2.2 h hk]

/-- Uppercasing is idempotent. -/
theorem pyUpperChar_idem (c : Char) : pyUpperChar (pyUpperChar c) = pyUpperChar c := by
  by_cases h : 97 ≤ c.toNat ∧ c.toNat ≤ 122
  · have ht := (pyUpperChar_toNat c).1 h
    exact (pyUpperChar_toNat (pyUpperChar c)).2 (by omega)
  · rw [(pyUpperChar_toNat c).2 h, (pyUpperChar_toNat c).2 h]

/-- Lowering a character preserves its whitespace status. -/
theorem pySpace_pyLowerChar (c : Char) : pySpaceChar (pyLowerChar c) = pySpaceChar c := by
  by_cases h : 65 ≤ c.toNat ∧ c.toNat ≤ 90
  · have ht := (pyLowerChar_toNat c).1 h
    have h1 : pySpaceChar (pyLowerChar c) = false := by
      rw [← Bool.not_eq_true, pySpaceChar_iff]
      omega
    have h2 : pySpaceChar c = false := by
      rw [← Bool.not_eq_true, pySpaceChar_iff]
      omega
    rw [h1, h2]
  · by_cases hk : c.toNat = 0x212A
    · have ht := (pyLowerChar_toNat c).2.1 h hk
      have h1 : pySpaceChar (pyLowerChar c) = false := by
        rw [← Bool.not_eq_true, pySpaceChar_iff]
        omega
      have h2 : pySpaceChar c = false := by
        rw [← Bool.not_eq_true, pySpaceChar_iff]
        omega
      rw [h1, h2]
    · rw [(pyLowerChar_toNat c).2.2 h hk]

/-- Uppercasing a character preserves its whitespace status. -/
theorem pySpace_pyUpperChar (c : Char) : pySpaceChar (pyUpperChar c) = pySpaceChar c := by
  by_cases h : 97 ≤ c.toNat ∧ c.toNat ≤ 122
  · have ht := (pyUpperChar_toNat c).1 h
    have h1 : pySpaceChar (pyUpperChar c) = false := by
      rw [← Bool.not_eq_true, pySpaceChar_iff]
      omega
    have h2 : pySpaceChar c = false := by
      rw [← Bool.not_eq_true, pySpaceChar_iff]
      omega
    rw [h1, h2]
  · rw [(pyUpperChar_toNat c).2 h]

/-- dropWhile leaves a list whose head fails the predicate. -/
theorem head_dropWhile_false (p : Char → Bool) :
    ∀ (l : List Char) (c : Char), (l.dropWhile p).head? = some c → p c = false := by
  intro l
  induction l with
  | nil => intro c h; cases h
  | cons a as ih =>
    intro c h
    rw [List.dropWhile_cons] at h
    by_cases ha : p a
    · rw [if_pos ha] at h
      exact ih c h
    · rw [if_neg ha] at h
      cases h
      exact Bool.of_not_eq_true ha

/-- A list whose head fails the predicate is untouched by dropWhile. -/
theorem dropWhile_eq_self_of_head (p : Char → Bool) (l : List Char)
    (h : ∀ c, l.head? = some c → p c = false) : l.dropWhile p = l := by
  cases l with
  | nil => rfl
  | cons a as =>
    rw [List.dropWhile_cons, if_neg (by rw [h a rfl]; exact Bool.false_ne_true)]

/-- A string whose first and last characters are not whitespace is fixed by
the strip. -/
theorem pyStripL_eq_self (s : List Char)
    (h1 : ∀ c, s.head? = some c → pySpaceChar c = false)
    (h2 : ∀ c, s.getLast? = some c → pySpaceChar c = false) :
    pyStripL s = s := by
  unfold pyStripL
  rw [dropWhile_eq_self_of_head _ s h1,
    dropWhile_eq_self_of_head _ s.reverse (by
      intro c hc
      rw [List.head?_reverse] at hc
      exact h2 c hc),
    List.reverse_reverse]

/-- The head of a stripped string is not whitespace. -/
theorem pyStripL_head (s : List Char) :
    ∀ c, (pyStripL s).head? = some c → pySpaceChar c = false := by
  intro c hc
  unfold pyStripL at hc
  set d1 := s.dropWhile pySpaceChar with hd1
  have hpre : (d1.reverse.dropWhile pySpaceChar).reverse <+: d1 := by
    have hsuff : d1.reverse.dropWhile pySpaceChar <:+ d1.reverse :=
      List.dropWhile_suffix pySpaceChar
    have := List.reverse_prefix.mpr hsuff
    rwa [List.reverse_reverse] at this
  obtain ⟨t, ht⟩ := hpre
  have hd : d1.head? = some c := by
    rw [← ht, List.head?_append, hc]
    rfl
  exact head_dropWhile_false pySpaceChar s c hd

/-- The last character of a stripped string is not whitespace. -/
theorem pyStripL_last (s : List Char) :
    ∀ c, (pyStripL s).getLast? = some c → pySpaceChar c = false := by
  intro c hc
  unfold pyStripL at hc
  rw [← List.head?_reverse, List.reverse_reverse] at hc
  exact head_dropWhile_false pySpaceChar _ c hc

/-- Stripping is idempotent. -/
theorem pyStripL_idem (s : List Char) : pyStripL (pyStripL s) = pyStripL s :=
  pyStripL_eq_self (pyStripL s) (pyStripL_head s) (pyStripL_last s)

/-- A transformation preserving the pointwise whitespace profile of an
already-stripped string yields an already-stripped string. -/
theorem pyStripL_eq_self_of_spacemap (s t : List Char)
    (hmap : t.map pySpaceChar = s.map pySpaceChar)
    (hs : pyStripL s = s) : pyStripL t = t := by
  apply pyStripL_eq_self
  · intro c hct
    have h1 : (t.map pySpaceChar).head? = some (pySpaceChar c) := by
      rw [List.head?_map, hct]
      rfl
    rw [hmap, List.head?_map] at h1
    cases hhs : s.head? with
    | none => rw [hhs] at h1; cases h1
    | some c2 =>
      rw [hhs] at h1
      have h2 : pySpaceChar c2 = pySpaceChar c := Option.some_inj.mp h1
      rw [← h2]
      have : ∀ c3, s.head? = some c3 → pySpaceChar c3 = false := by
        conv in s.head? => rw [← hs]
        exact pyStripL_head s
      exact this c2 hhs
  · intro c hct
    have h1 : (t.map pySpaceChar).getLast? = some (pySpaceChar c) := by
      rw [List.getLast?_map, hct]
      rfl
    rw [hmap, List.getLast?_map] at h1
    cases hhs : s.getLast? with
    | none => rw [hhs] at h1; cases h1
    | some c2 =>
      rw [hhs] at h1
      have h2 : pySpaceChar c2 = pySpaceChar c := Option.some_inj.mp h1
      rw [← h2]
      have : ∀ c3, s.getLast? = some c3 → pySpaceChar c3 = false := by
        conv in s.getLast? => rw [← hs]
        exact pyStripL_last s
      exact this c2 hhs

/-- Membership in a stripped string implies membership in the original. -/
theorem mem_pyStripL {c : Char} {s : List Char} (h : c ∈ pyStripL s) : c ∈ s := by
  unfold pyStripL at h
  rw [List.mem_reverse] at h
  have h2 := (List.dropWhile_sublist pySpaceChar).subset h
  rw [List.mem_reverse] at h2
  exact (List.dropWhile_sublist pySpaceChar).subset h2


/-- Title casing preserves the pointwise whitespace profile. -/
theorem pyTitleAux_spacemap : ∀ (b : Bool) (s : List Char),
    (pyTitleAux b s).map pySpaceChar = s.map pySpaceChar := by
  intro b s
  induction s generalizing b with
  | nil => rfl
  | cons c cs ih =>
    unfold pyTitleAux
    by_cases hc : asciiAlpha c
    · rw [if_pos hc]
      by_cases hb : b
      · rw [if_pos hb]
        simp only [List.map_cons, ih true, pySpace_pyLowerChar]
      · rw [if_neg hb]
        simp only [List.map_cons, ih true, pySpace_pyUpperChar]
    · rw [if_neg hc]
      simp only [List.map_cons, ih false]

/-- Lowercasing preserves the pointwise whitespace profile. -/
theorem pyLowerL_spacemap (s : List Char) :
    (pyLowerL s).map pySpaceChar = s.map pySpaceChar := by
  unfold pyLowerL
  rw [List.map_map]
  exact List.map_congr_left (fun c _ => pySpace_pyLowerChar c)

/-- Case mapping of an ASCII letter stays an ASCII letter. -/
theorem asciiAlpha_pyLowerChar {c : Char} (h : asciiAlpha c = true) :
    asciiAlpha (pyLowerChar c) = true := by
  unfold asciiAlpha at h
  simp only [Bool.or_eq_true, decide_eq_true_eq] at h
  rcases h with h | h
  · have := (pyLowerChar_toNat c).1 h
    unfold asciiAlpha
    simp only [Bool.or_eq_true, decide_eq_true_eq]
    omega
  · rw [(pyLowerChar_toNat c).2.2 (by omega) (by omega)]
    unfold asciiAlpha
    simp only [Bool.or_eq_true, decide_eq_true_eq]
    omega

/-- Uppercasing of an ASCII letter stays an ASCII letter. -/
theorem asciiAlpha_pyUpperChar {c : Char} (h : asciiAlpha c = true) :
    asciiAlpha (pyUpperChar c) = true := by
  unfold asciiAlpha at h
  simp only [Bool.or_eq_true, decide_eq_true_eq] at h
  rcases h with h | h
  · rw [(pyUpperChar_toNat c).2 (by omega)]
    unfold asciiAlpha
    simp only [Bool.or_eq_true, decide_eq_true_eq]
    omega
  · have := (pyUpperChar_toNat c).1 h
    unfold asciiAlpha
    simp only [Bool.or_eq_true, decide_eq_true_eq]
    omega

/-- Title casing is idempotent. -/
theorem pyTitleAux_idem : ∀ (b : Bool) (s : List Char),
    pyTitleAux b (pyTitleAux b s) = pyTitleAux b s := by
  intro b s
  induction s generalizing b with
  | nil => rfl
  | cons c cs ih =>
    simp only [pyTitleAux]
    by_cases hc : asciiAlpha c
    · rw [if_pos hc]
      by_cases hb : b
      · rw [if_pos hb]
        simp only [pyTitleAux]
        rw [if_pos (asciiAlpha_pyLowerChar hc), if_pos hb, pyLowerChar_idem, ih true]
      · rw [if_neg hb]
        simp only [pyTitleAux]
        rw [if_pos (asciiAlpha_pyUpperChar hc), if_neg hb, pyUpperChar_idem, ih true]
    · rw [if_neg hc]
      simp only [pyTitleAux]
      rw [if_neg hc, ih false]

/-- Title casing maps the regex class into itself. -/
theorem pyTitleAux_class : ∀ (b : Bool) (s : List Char),
    s.all englishClassChar = true → (pyTitleAux b s).all englishClassChar = true := by
  intro b s
  induction s generalizing b with
  | nil => intro _; rfl
  | cons c cs ih =>
    intro h
    rw [List.all_cons, Bool.and_eq_true] at h
    unfold pyTitleAux
    by_cases hc : asciiAlpha c
    · rw [if_pos hc, List.all_cons, Bool.and_eq_true]
      refine ⟨?_, ih true h.2⟩
      by_cases hb : b
      · rw [if_pos hb, englishClassChar_iff]
        have := asciiAlpha_pyLowerChar hc
        unfold asciiAlpha at this
        simp only [Bool.or_eq_true, decide_eq_true_eq] at this
        omega
      · rw [if_neg hb, englishClassChar_iff]
        have := asciiAlpha_pyUpperChar hc
        unfold asciiAlpha at this
        simp only [Bool.or_eq_true, decide_eq_true_eq] at this
        omega
    · rw [if_neg hc, List.all_cons, Bool.and_eq_true]
      exact ⟨h.1, ih false h.2⟩

/-- Title casing preserves length. -/
theorem pyTitleAux_length : ∀ (b : Bool) (s : List Char),
    (pyTitleAux b s).length = s.length := by
  intro b s
  induction s generalizing b with
  | nil => rfl
  | cons c cs ih =>
    unfold pyTitleAux
    by_cases hc : asciiAlpha c
    · rw [if_pos hc]
      simp [ih true]
    · rw [if_neg hc]
      simp [ih false]

/-- Characters on which the case model is exact and Python-faithful: ASCII,
or a Hangul syllable (caseless). The U+212A KELVIN SIGN is deliberately
outside this set: its lowercase mapping enters [a-z] from outside the
regex class [a-zA-Z\s\-], which breaks normalization idempotence. -/
def SafeChar (c : Char) : Prop :=
  c.toNat ≤ 127 ∨ (0xAC00 ≤ c.toNat ∧ c.toNat ≤ 0xD7A3)

instance (c : Char) : Decidable (SafeChar c) := by
  unfold SafeChar
  infer_instance

/-- For a safe character, lowering preserves regex-class membership in both
directions. -/
theorem englishClass_pyLowerChar {c : Char} (h : SafeChar c) :
    englishClassChar (pyLowerChar c) = englishClassChar c := by
  unfold SafeChar at h
  by_cases hu : 65 ≤ c.toNat ∧ c.toNat ≤ 90
  · have ht := (pyLowerChar_toNat c).1 hu
    have h1 : englishClassChar (pyLowerChar c) = true := by
      rw [englishClassChar_iff]
      omega
    have h2 : englishClassChar c = true := by
      rw [englishClassChar_iff]
      omega
    rw [h1, h2]
  · have hk : c.toNat ≠ 0x212A := by omega
    rw [(pyLowerChar_toNat c).2.2 hu hk]

/-- Title casing preserves emptiness. -/
theorem pyTitleL_isEmpty (s : List Char) : (pyTitleL s).isEmpty = s.isEmpty := by
  cases s with
  | nil => rfl
  | cons c cs =>
    by_cases h : asciiAlpha c <;> simp [pyTitleL, pyTitleAux, h]

/-- Lowercasing preserves emptiness. -/
theorem pyLowerL_isEmpty (s : List Char) : (pyLowerL s).isEmpty = s.isEmpty := by
  unfold pyLowerL
  cases s <;> rfl

/-- The normalization model, one level below the String wrapper: stripping
first, then the regex decision. -/
theorem normalizeTagNameL_eq (name : List Char) :
    normalizeTagNameL name
      = if matchesEnglishRegex (pyStripL name) then pyTitleL (pyStripL name)
        else pyLowerL (pyStripL name) := rfl

/-- Idempotence of normalization over safe characters (the list level). -/
theorem normalizeTagNameL_idem (name : List Char)
    (h : ∀ c ∈ name, SafeChar c) :
    normalizeTagNameL (normalizeTagNameL name) = normalizeTagNameL name := by
  have hfix : pyStripL (pyStripL name) = pyStripL name := pyStripL_idem name
  set s0 := pyStripL name with hs0
  by_cases hE : matchesEnglishRegex s0
  · have hres : normalizeTagNameL name = pyTitleL s0 := by
      rw [normalizeTagNameL_eq, ← hs0, if_pos hE]
    rw [hres]
    have hsp : (pyTitleL s0).map pySpaceChar = s0.map pySpaceChar :=
      pyTitleAux_spacemap false s0
    have hstrip2 : pyStripL (pyTitleL s0) = pyTitleL s0 :=
      pyStripL_eq_self_of_spacemap s0 (pyTitleL s0) hsp hfix
    have hE0 := hE
    unfold matchesEnglishRegex at hE0
    rw [Bool.and_eq_true] at hE0
    have hE2 : matchesEnglishRegex (pyTitleL s0) = true := by
      unfold matchesEnglishRegex
      rw [Bool.and_eq_true]
      constructor
      · rw [pyTitleL_isEmpty]
        exact hE0.1
      · exact pyTitleAux_class false s0 hE0.2
    rw [normalizeTagNameL_eq, hstrip2, if_pos hE2]
    exact pyTitleAux_idem false s0
  · have hres : normalizeTagNameL name = pyLowerL s0 := by
      rw [normalizeTagNameL_eq, ← hs0, if_neg hE]
    rw [hres]
    have hsafe0 : ∀ c ∈ s0, SafeChar c := fun c hc => h c (mem_pyStripL hc)
    have hsp : (pyLowerL s0).map pySpaceChar = s0.map pySpaceChar :=
      pyLowerL_spacemap s0
    have hstrip2 : pyStripL (pyLowerL s0) = pyLowerL s0 :=
      pyStripL_eq_self_of_spacemap s0 (pyLowerL s0) hsp hfix
    have hE2 : matchesEnglishRegex (pyLowerL s0) = matchesEnglishRegex s0 := by
      unfold matchesEnglishRegex
      rw [pyLowerL_isEmpty]
      have hall : (pyLowerL s0).all englishClassChar = s0.all englishClassChar := by
        unfold pyLowerL
        rw [List.all_map]
        cases hcase : s0.all englishClassChar with
        | true =>
          rw [List.all_eq_true] at hcase ⊢
          intro c hc
          have := englishClass_pyLowerChar (hsafe0 c hc)
          simp only [Function.comp_apply, this]
          exact hcase c hc
        | false =>
          rw [← Bool.not_eq_true] at hcase ⊢
          rw [List.all_eq_true] at hcase ⊢
          intro hcon
          apply hcase
          intro c hc
          have := englishClass_pyLowerChar (hsafe0 c hc)
          rw [← this]
          exact hcon c hc
      rw [hall]
    rw [normalizeTagNameL_eq, hstrip2, hE2, if_neg hE]
    unfold pyLowerL
    rw [List.map_map]
    exact List.map_congr_left (fun c _ => pyLowerChar_idem c)

/-- The one-character string U+212A KELVIN SIGN, whose CPython lowercase is
the ASCII letter k. -/
def kelvinStr : String := ⟨[Char.ofNat 0x212A]⟩

/-- C9 counterexample: normalization is not idempotent on all strings: the
KELVIN SIGN is outside the English regex class, so the first pass
lowercases it to the ASCII "k"; the second pass then matches the regex
and title-cases to "K". -/
theorem C9_counterexample :
    normalize_tag_name kelvinStr = "k" ∧
    normalize_tag_name (normalize_tag_name kelvinStr) = "K" ∧
    normalize_tag_name (normalize_tag_name kelvinStr) ≠ normalize_tag_name kelvinStr :=
  ⟨by decide, by decide, by decide⟩

/-- C9 (amended): normalize_tag_name is idempotent on every string whose
characters are ASCII or Hangul syllables (any characters whose case
behaviour the regex split treats stably — the failure needs an exotic
character like U+212A whose lowercase crosses into [a-z] from outside
the class); the concrete normalizations of "CLOUD COMPUTING" and of
데이터베이스 are as claimed. -/
theorem C9_normalize_idempotent :
    (∀ s : String, (∀ c ∈ s.data, SafeChar c) →
      normalize_tag_name (normalize_tag_name s) = normalize_tag_name s) ∧
    normalize_tag_name "CLOUD COMPUTING" = "Cloud Computing" ∧
    normalize_tag_name "데이터베이스" = "데이터베이스" := by
  refine ⟨?_, by decide, by decide⟩
  intro s h
  show (⟨normalizeTagNameL (normalizeTagNameL s.data)⟩ : String) = ⟨normalizeTagNameL s.data⟩
  rw [normalizeTagNameL_idem s.data h]

/-- Closed instance of C9_normalize_idempotent: idempotence at a mixed-case
padded English string. -/
theorem C9_normalize_idempotent_witness :
    normalize_tag_name (normalize_tag_name "  cloud  COMPUTING ")
      = normalize_tag_name "  cloud  COMPUTING " :=
  C9_normalize_idempotent.1 "  cloud  COMPUTING " (by decide)
